import Mathlib

/-!
Verification of the BLS signature layer over BN254 (repository `kilic/bn254`,
package `bls`).

The signature layer (`bls.go`: key pairs, signer, verifier, aggregation) is
embedded directly from the source.  The underlying curve library (G1/G2 point
arithmetic, the pairing engine with its Miller loop and final exponentiation,
and the point byte codecs) is not part of the provided sources; following the
specification, those primitives are modelled abstractly: G1, G2 and GT are
prime-order groups of order `r` represented by discrete logarithms with
respect to the generators, the pairing is the bilinear non-degenerate map
`(a, b) ↦ a * b` on exponents, and point encodings are canonical big-endian
byte encodings.  Every such definition carries a `Modelled from the spec:`
doc comment.
-/

namespace BLS

/-- Modelled from the spec: the BN254 subgroup order `r` (spec §6), the
curve library's `Order` constant (`var Order = bn254.Order`); the constant
itself lives in the curve library outside the provided sources. -/
def Order : ℕ :=
  21888242871839275222246405745257275088548364400416034343698204186575808495617

instance : NeZero Order := ⟨by decide⟩

/-- Modelled from the spec: G1 is a prime-order group of order `r` (spec §3,
glossary); the curve arithmetic layer is outside the provided sources, so
points are represented by their discrete logarithm with respect to the
G1 generator. -/
abbrev PointG1 : Type := ZMod Order

/-- Modelled from the spec: G2 is a prime-order group of order `r` (spec §3,
glossary); points are represented by their discrete logarithm with respect to
the G2 generator. -/
abbrev PointG2 : Type := ZMod Order

/-- Modelled from the spec: GT is the target group, cyclic of order `r`
(spec §3).  It is written additively here (discrete-log representation):
the GT multiplicative identity is `0` and the product of GT elements is
addition of exponents. -/
abbrev TargetGroup : Type := ZMod Order

/-- Modelled from the spec: the GT identity check `is_one` (spec §4.5);
in the discrete-log representation the multiplicative identity is `0`. -/
def gtIsOne (x : TargetGroup) : Bool := decide (x = 0)

/-- Modelled from the spec: the optimal-Ate pairing `e : G1 × G2 → GT`
(spec glossary), a bilinear non-degenerate map; on discrete logarithms it is
multiplication of exponents: `e(a·G1, b·G2) = e(G1, G2)^(a*b)`. -/
def pairing (a : PointG1) (b : PointG2) : TargetGroup := a * b

/-- Modelled from the spec: the G1 generator (spec §6); its discrete
logarithm is `1`. -/
def g1One : PointG1 := 1

/-- Modelled from the spec: the G2 generator (spec §6); its discrete
logarithm is `1`. -/
def g2One : PointG2 := 1

/-- Modelled from the spec: `mul_scalar(dst, p, s)` on G1 (spec §6); in a
group of order `r` scalar multiplication by the natural number `s` acts
through `s mod r`, i.e. through the cast `ℕ → ZMod r`. -/
def g1MulScalar (p : PointG1) (s : ℕ) : PointG1 := (s : ZMod Order) * p

/-- Modelled from the spec: `mul_scalar(dst, p, s)` on G2 (spec §6). -/
def g2MulScalar (p : PointG2) (s : ℕ) : PointG2 := (s : ZMod Order) * p

/-- Big-endian encoding of a natural number into exactly `k` bytes, most
significant byte first (the value is taken modulo `256^k`).  This models the
Go idiom `copy(buf[k-len(s.Bytes()):], s.Bytes())` on a zeroed buffer. -/
def natToBeBytes : ℕ → ℕ → List ℕ
  | 0, _ => []
  | k + 1, n => natToBeBytes k (n / 256) ++ [n % 256]

/-- Value of a big-endian byte string, as `math/big`'s `SetBytes` computes. -/
def beBytesToNat (l : List ℕ) : ℕ := l.foldl (fun acc b => acc * 256 + b) 0

/-- Modelled from the spec: G2 point byte encoding, 128 big-endian bytes
(spec §6); the coordinate-level codec `G2.ToBytes` lives in the curve library
outside the provided sources, so the model encodes the discrete logarithm
canonically. -/
def g2ToBytes (p : PointG2) : List ℕ := natToBeBytes 128 p.val

/-- Modelled from the spec: `G2.FromBytes` (spec §4.2, §6): a 128-byte blob
is decoded, rejecting malformed encodings; the all-zero blob decodes to the
identity.  The on-curve check of the library is modelled as canonicity of the
encoded discrete logarithm. -/
def g2FromBytes (l : List ℕ) : Except String PointG2 :=
  if l.length = 128 ∧ beBytesToNat l < Order then
    Except.ok ((beBytesToNat l : ZMod Order))
  else Except.error "invalid point encoding"

/-- Modelled from the spec: G1 point byte encoding, 64 big-endian bytes
(spec §6). -/
def g1ToBytes (p : PointG1) : List ℕ := natToBeBytes 64 p.val

/-- Modelled from the spec: `G1.FromBytes` (spec §6), 64-byte blobs,
rejecting malformed encodings. -/
def g1FromBytes (l : List ℕ) : Except String PointG1 :=
  if l.length = 64 ∧ beBytesToNat l < Order then
    Except.ok ((beBytesToNat l : ZMod Order))
  else Except.error "invalid point encoding"

/-- A pending pair of the pairing engine: G1 operand, G2 operand, and the
inversion flag (`true` for pairs pushed by `AddPairInv`). -/
structure PairingPair where
  g1 : PointG1
  g2 : PointG2
  inverted : Bool
deriving DecidableEq

/-- Contribution of one pending pair to the accumulated product, in the
discrete-log (additive) representation of GT: `e(a, b)^{±1}`. -/
def PairingPair.contribution (p : PairingPair) : TargetGroup :=
  if p.inverted then -(pairing p.g1 p.g2) else pairing p.g1 p.g2

/-- Modelled from the spec: the pairing engine (spec §4.5), an ordered
sequence of signed pairs; `bn254.Engine` lives in the curve library outside
the provided sources. -/
structure Engine where
  pairs : List PairingPair
deriving DecidableEq

/-- Modelled from the spec: `bn254.NewEngine()` returns an engine with no
pending pairs. -/
def NewEngine : Engine := ⟨[]⟩

/-- Modelled from the spec: `add_pair(a, b)` pushes `(a, b, +1)`
(spec §4.5). -/
def Engine.AddPair (e : Engine) (a : PointG1) (b : PointG2) : Engine :=
  ⟨e.pairs ++ [⟨a, b, false⟩]⟩

/-- Modelled from the spec: `add_pair_inv(a, b)` pushes `(a, b, −1)`
(spec §4.5). -/
def Engine.AddPairInv (e : Engine) (a : PointG1) (b : PointG2) : Engine :=
  ⟨e.pairs ++ [⟨a, b, true⟩]⟩

/-- Modelled from the spec: `result()` computes `∏ e(aᵢ, bᵢ)^{signᵢ}`
(spec §4.5) and does not clear the pending set (spec §4.5 state machine);
in the additive representation of GT the product is the sum of
contributions. -/
def Engine.Result (e : Engine) : TargetGroup :=
  (e.pairs.map PairingPair.contribution).sum

/-- Modelled from the spec: `check()` returns `result() == GT identity`
(spec §4.5) and does not clear the pending set. -/
def Engine.Check (e : Engine) : Bool := gtIsOne e.Result

/-- Modelled from the spec: `reset()` clears the pending pairs
(spec §4.5). -/
def Engine.Reset (_e : Engine) : Engine := ⟨[]⟩

/-- A message: transaction payload plus domain-separation tag
(`bls.Message`). -/
structure Message where
  Message : List ℕ
  Domain : List ℕ
deriving DecidableEq

/-- The `bls.Hasher` interface: maps a message to a G1 point, possibly
failing (`Hash(message) (*PointG1, error)`).  `none` models a non-nil
error. -/
def Hasher : Type := Message → Option PointG1

/-- `bls.PublicKey`: a G2 point (`point *PointG2`). -/
structure PublicKey where
  point : PointG2
deriving DecidableEq

/-- `bls.Signature`: a G1 point (`point *PointG1`). -/
structure Signature where
  point : PointG1
deriving DecidableEq

/-- `bls.SecretKey`: a 32-byte buffer (`[32]byte`), modelled as a list of
byte values. -/
abbrev SecretKey : Type := List ℕ

/-- `bls.AggregatedKey = PublicKey` (type alias in the source). -/
abbrev AggregatedKey : Type := PublicKey

/-- `bls.AggregatedSignature = Signature` (type alias in the source). -/
abbrev AggregatedSignature : Type := Signature

/-- `bls.KeyPair`: secret bytes plus public G2 point. -/
structure KeyPair where
  secret : SecretKey
  Public : PublicKey
deriving DecidableEq

/-- Errors of the verification layer.  The source uses `errors.New` values:
`emptyKeySet` stands for "public key size is zero", `lengthMismatch` for
"message and key sizes must be equal", and `hashFailure` for an error
propagated from the hasher. -/
inductive BLSError where
  | emptyKeySet
  | lengthMismatch
  | hashFailure
deriving DecidableEq

/-- `bls.BLSSigner`: a hasher and the signing account. -/
structure BLSSigner where
  hasher : Hasher
  Account : KeyPair

/-- `bls.BLSVerifier`: a hasher and a pairing engine, constructed once per
verifier by `NewBLSVerifier` and shared by all its verification calls. -/
structure BLSVerifier where
  hasher : Hasher
  e : Engine

/-- `bls.NewBLSSigner(hasher, account)`. -/
def NewBLSSigner (h : Hasher) (account : KeyPair) : BLSSigner :=
  ⟨h, account⟩

/-- `bls.NewBLSVerifier(hasher)`: pairs the hasher with `bn254.NewEngine()`. -/
def NewBLSVerifier (h : Hasher) : BLSVerifier :=
  ⟨h, NewEngine⟩

/-- `bls.PublicKeyFromBytes(in)`: decode a G2 point, propagating the
decoding error. -/
def PublicKeyFromBytes (l : List ℕ) : Except String PublicKey :=
  match g2FromBytes l with
  | Except.error e => Except.error e
  | Except.ok p => Except.ok ⟨p⟩

/-- `bls.PublicKey.ToBytes()`. -/
def PublicKey.ToBytes (p : PublicKey) : List ℕ := g2ToBytes p.point

/-- `bls.SignatureKeyFromBytes(in)`: decode a G1 point, propagating the
decoding error. -/
def SignatureKeyFromBytes (l : List ℕ) : Except String Signature :=
  match g1FromBytes l with
  | Except.error e => Except.error e
  | Except.ok p => Except.ok ⟨p⟩

/-- `bls.Signature.ToBytes()`. -/
def Signature.ToBytes (s : Signature) : List ℕ := g1ToBytes s.point

/-- `bls.NewKeyPair(r)`: the entropy source is consumed only through
`rand.Int(r, Order)`, the spec's uniform-integer-below-N primitive (spec §1,
§5); its result `s` is the parameter here.  The secret buffer is the 32-byte
zero-padded big-endian encoding of `s`
(`copy(secret[32-len(s.Bytes()):], s.Bytes())`) and the public point is
`g2.MulScalar(public, g2.One(), s)`. -/
def NewKeyPair (s : ℕ) : KeyPair :=
  ⟨natToBeBytes 32 s, ⟨g2MulScalar g2One s⟩⟩

/-- `bls.NewKeyPairFromBytes(in)`: require 160 bytes, decode the first 128
as a G2 public key, and copy the trailing 32 bytes verbatim into the secret
buffer (`copy(secretKey[:], in[128:])`). -/
def NewKeyPairFromBytes (l : List ℕ) : Except String KeyPair :=
  if l.length ≠ 160 then
    Except.error "160 byte input is required to recover"
  else
    match g2FromBytes (l.take 128) with
    | Except.error e => Except.error e
    | Except.ok p => Except.ok ⟨l.drop 128, ⟨p⟩⟩

/-- `bls.KeyPair.ToBytes()`: public key bytes followed by the secret
bytes. -/
def KeyPair.ToBytes (kp : KeyPair) : List ℕ :=
  kp.Public.ToBytes ++ kp.secret

/-- `bls.BLSSigner.Sign(message)`: hash the message to G1 and multiply by
the scalar read from the secret bytes
(`g.MulScalar(signature, signature, new(big.Int).SetBytes(secret[:]))`). -/
def BLSSigner.Sign (signer : BLSSigner) (m : Message) : Option Signature :=
  match signer.hasher m with
  | none => none
  | some hm => some ⟨g1MulScalar hm (beBytesToNat signer.Account.secret)⟩

/-- `bls.BLSVerifier.AggregatePublicKeys(keys)`: empty input yields the G2
identity; otherwise the first point is copied into a fresh point and the
rest are folded in with `g.Add`. -/
def BLSVerifier.AggregatePublicKeys (_bls : BLSVerifier)
    (keys : List PublicKey) : AggregatedKey :=
  match keys with
  | [] => ⟨0⟩
  | k :: rest => ⟨rest.foldl (fun acc p => acc + p.point) k.point⟩

/-- `bls.BLSVerifier.AggregateSignatures(signatures)`: empty input yields
the G1 identity; otherwise fold with `g.Add` starting from a copy of the
first point. -/
def BLSVerifier.AggregateSignatures (_bls : BLSVerifier)
    (signatures : List Signature) : AggregatedSignature :=
  match signatures with
  | [] => ⟨0⟩
  | s :: rest => ⟨rest.foldl (fun acc p => acc + p.point) s.point⟩

/-- `bls.BLSVerifier.Verify(message, signature, publicKey)`: hash the
message, push `(M, pk)` and `(σ, G2 generator)⁻¹` onto the verifier's
engine, and return `Check()`.  The returned verifier carries the engine
state after the call (the Go engine is mutated in place and never reset). -/
def BLSVerifier.Verify (bls : BLSVerifier) (m : Message) (sig : Signature)
    (publicKey : PublicKey) : Bool × Option BLSError × BLSVerifier :=
  match bls.hasher m with
  | none => (false, some BLSError.hashFailure, bls)
  | some hm =>
      let e1 := (bls.e.AddPair hm publicKey.point).AddPairInv sig.point g2One
      (e1.Check, none, ⟨bls.hasher, e1⟩)

/-- `bls.BLSVerifier.VerifyAggregateCommon(message, publicKeys, signature)`:
reject an empty key set, hash the common message, aggregate the keys, push
the two pairs, and return `Check()`. -/
def BLSVerifier.VerifyAggregateCommon (bls : BLSVerifier) (m : Message)
    (publicKeys : List PublicKey) (sig : AggregatedSignature) :
    Bool × Option BLSError × BLSVerifier :=
  if publicKeys.length = 0 then (false, some BLSError.emptyKeySet, bls)
  else
    match bls.hasher m with
    | none => (false, some BLSError.hashFailure, bls)
    | some hm =>
        let agg := bls.AggregatePublicKeys publicKeys
        let e1 := (bls.e.AddPair hm agg.point).AddPairInv sig.point g2One
        (e1.Check, none, ⟨bls.hasher, e1⟩)

/-- The loop of `bls.BLSVerifier.VerifyAggregate`: for each message, hash it
and push `(Mᵢ, pkᵢ)`; a hash error aborts the loop, keeping the pairs pushed
so far (the Go engine was already mutated). -/
def VerifyAggregateLoop (h : Hasher) :
    Engine → List Message → List PublicKey → Option BLSError × Engine
  | e, [], _ => (none, e)
  | e, _ :: _, [] => (none, e)
  | e, m :: ms, pk :: pks =>
      match h m with
      | none => (some BLSError.hashFailure, e)
      | some hm => VerifyAggregateLoop h (e.AddPair hm pk.point) ms pks

/-- `bls.BLSVerifier.VerifyAggregate(messages, publicKeys, signature)`:
reject an empty key set, then a length mismatch; push
`(σ, G2 generator)⁻¹`, then one pair per message, and return `Check()`. -/
def BLSVerifier.VerifyAggregate (bls : BLSVerifier) (messages : List Message)
    (publicKeys : List PublicKey) (sig : AggregatedSignature) :
    Bool × Option BLSError × BLSVerifier :=
  if publicKeys.length = 0 then (false, some BLSError.emptyKeySet, bls)
  else if messages.length ≠ publicKeys.length then
    (false, some BLSError.lengthMismatch, bls)
  else
    let e0 := bls.e.AddPairInv sig.point g2One
    match VerifyAggregateLoop bls.hasher e0 messages publicKeys with
    | (some err, e1) => (false, some err, ⟨bls.hasher, e1⟩)
    | (none, e1) => (e1.Check, none, ⟨bls.hasher, e1⟩)

/-- Heap-level model of `AggregatePublicKeys` / `AggregateSignatures` for
the frame properties of the Go code: the store maps pointer indices to group
elements, the input is a list of pointers.  `new(Point).Set(first)`
allocates a fresh cell at index `σ.length` initialised with a copy of the
first input's value; each loop step `g.Add(aggregated, aggregated, k)`
overwrites only that fresh cell.  (`g.Zero()` of the empty branch also
allocates a fresh cell.)  G1 and G2 elements share the carrier, so one
definition covers both functions. -/
def AggregateHeap (σ : List (ZMod Order)) (ptrs : List ℕ) :
    List (ZMod Order) × ℕ :=
  match ptrs with
  | [] => (σ ++ [0], σ.length)
  | p0 :: rest =>
      (rest.foldl
        (fun s pi => s.set σ.length (s.getD σ.length 0 + s.getD pi 0))
        (σ ++ [σ.getD p0 0]), σ.length)

theorem natToBeBytes_length (k n : ℕ) : (natToBeBytes k n).length = k := by
  induction k generalizing n with
  | zero => rfl
  | succ k ih => simp [natToBeBytes, ih]

theorem beBytesToNat_append (l₁ l₂ : List ℕ) :
    beBytesToNat (l₁ ++ l₂) =
      l₂.foldl (fun acc b => acc * 256 + b) (beBytesToNat l₁) := by
  simp [beBytesToNat, List.foldl_append]

theorem mod_mul_decomp (n a b : ℕ) :
    n % (a * b) = a * (n / a % b) + n % a := by
  conv_lhs => rw [← Nat.div_add_mod (n % (a * b)) a]
  rw [Nat.mod_mul_right_div_self, Nat.mod_mod_of_dvd _ (dvd_mul_right a b)]

theorem beBytesToNat_natToBeBytes (k n : ℕ) :
    beBytesToNat (natToBeBytes k n) = n % 256 ^ k := by
  induction k generalizing n with
  | zero => simp [natToBeBytes, beBytesToNat]; omega
  | succ k ih =>
      rw [natToBeBytes, beBytesToNat_append, pow_succ, mul_comm (256 ^ k) 256,
        mod_mul_decomp]
      simp [beBytesToNat] at ih ⊢
      rw [ih]
      ring

theorem Engine.Result_append (p₁ p₂ : List PairingPair) :
    Engine.Result ⟨p₁ ++ p₂⟩ = Engine.Result ⟨p₁⟩ + Engine.Result ⟨p₂⟩ := by
  simp [Engine.Result]

theorem Engine.Check_append_of_result_zero (e : Engine) (l : List PairingPair)
    (he : e.Result = 0) :
    Engine.Check ⟨e.pairs ++ l⟩ = Engine.Check ⟨l⟩ := by
  have : Engine.Result ⟨e.pairs ++ l⟩ = Engine.Result ⟨l⟩ := by
    rw [Engine.Result_append]
    have : Engine.Result ⟨e.pairs⟩ = e.Result := rfl
    rw [this, he, zero_add]
  simp [Engine.Check, this]

theorem foldl_add_eq {α : Type} (f : α → ZMod Order) (l : List α)
    (a : ZMod Order) :
    l.foldl (fun acc p => acc + f p) a = a + (l.map f).sum := by
  induction l generalizing a with
  | nil => simp
  | cons x xs ih => simp [ih, add_assoc]

theorem aggregatePublicKeys_eq_sum (bls : BLSVerifier) (l : List PublicKey) :
    (bls.AggregatePublicKeys l).point = (l.map PublicKey.point).sum := by
  cases l with
  | nil => simp [BLSVerifier.AggregatePublicKeys]
  | cons k rest =>
      simp [BLSVerifier.AggregatePublicKeys, foldl_add_eq PublicKey.point]

theorem aggregateSignatures_eq_sum (bls : BLSVerifier) (l : List Signature) :
    (bls.AggregateSignatures l).point = (l.map Signature.point).sum := by
  cases l with
  | nil => simp [BLSVerifier.AggregateSignatures]
  | cons s rest =>
      simp [BLSVerifier.AggregateSignatures, foldl_add_eq Signature.point]

/-- C5: in the pairing accumulator, every pair whose G1 operand or G2
operand is the group identity contributes the GT multiplicative identity to
`result()`; consequently an accumulator containing no pairs, or only such
zero-operand pairs, has `result()` equal to the GT identity and `check()`
returning `true`. -/
theorem pairing_zero_operand_pairs (e : Engine)
    (h : ∀ p ∈ e.pairs, p.g1 = 0 ∨ p.g2 = 0) :
    e.Result = 0 ∧ e.Check = true ∧
      NewEngine.Result = 0 ∧ NewEngine.Check = true := by
  have hres : e.Result = 0 := by
    apply List.sum_eq_zero
    intro x hx
    obtain ⟨p, hp, rfl⟩ := List.mem_map.mp hx
    rcases h p hp with h0 | h0 <;>
      simp [PairingPair.contribution, pairing, h0]
  refine ⟨hres, ?_, rfl, rfl⟩
  simp [Engine.Check, gtIsOne, hres]

/-- C5 witness: a concrete accumulator holding zero-operand pairs has
identity result and passing check. -/
theorem pairing_zero_operand_pairs_witness :
    (Engine.mk [⟨0, 1, false⟩, ⟨1, 0, true⟩]).Result = 0 ∧
      (Engine.mk [⟨0, 1, false⟩, ⟨1, 0, true⟩]).Check = true ∧
      NewEngine.Result = 0 ∧ NewEngine.Check = true :=
  pairing_zero_operand_pairs (Engine.mk [⟨0, 1, false⟩, ⟨1, 0, true⟩])
    (by decide)

/-- C7: aggregation is order-independent: permuting the list of signatures
(resp. public keys) does not change the aggregate returned by
`AggregateSignatures` (resp. `AggregatePublicKeys`). -/
theorem aggregate_perm_invariant (bls : BLSVerifier)
    (sigs sigs' : List Signature) (keys keys' : List PublicKey)
    (hs : sigs.Perm sigs') (hk : keys.Perm keys') :
    bls.AggregateSignatures sigs = bls.AggregateSignatures sigs' ∧
      bls.AggregatePublicKeys keys = bls.AggregatePublicKeys keys' := by
  constructor
  · have : (bls.AggregateSignatures sigs).point =
        (bls.AggregateSignatures sigs').point := by
      rw [aggregateSignatures_eq_sum, aggregateSignatures_eq_sum]
      exact (hs.map Signature.point).sum_eq
    cases hA : bls.AggregateSignatures sigs
    cases hB : bls.AggregateSignatures sigs'
    simpa [hA, hB] using this
  · have : (bls.AggregatePublicKeys keys).point =
        (bls.AggregatePublicKeys keys').point := by
      rw [aggregatePublicKeys_eq_sum, aggregatePublicKeys_eq_sum]
      exact (hk.map PublicKey.point).sum_eq
    cases hA : bls.AggregatePublicKeys keys
    cases hB : bls.AggregatePublicKeys keys'
    simpa [hA, hB] using this

/-- C7 witness: concrete permuted lists aggregate to the same points. -/
theorem aggregate_perm_invariant_witness :
    (NewBLSVerifier (fun _ => none)).AggregateSignatures [⟨1⟩, ⟨2⟩, ⟨3⟩] =
        (NewBLSVerifier (fun _ => none)).AggregateSignatures [⟨3⟩, ⟨1⟩, ⟨2⟩] ∧
      (NewBLSVerifier (fun _ => none)).AggregatePublicKeys [⟨4⟩, ⟨5⟩] =
        (NewBLSVerifier (fun _ => none)).AggregatePublicKeys [⟨5⟩, ⟨4⟩] :=
  aggregate_perm_invariant (NewBLSVerifier (fun _ => none))
    [⟨1⟩, ⟨2⟩, ⟨3⟩] [⟨3⟩, ⟨1⟩, ⟨2⟩] [⟨4⟩, ⟨5⟩] [⟨5⟩, ⟨4⟩]
    (by decide) (by decide)

/-- C8 counterexample: `VerifyAggregate` called with one message and zero
keys has `|messages| ≠ |keys|`, yet it returns the `EmptyKeySet` error, not
the `LengthMismatch` error the claim demands. -/
theorem verify_aggregate_mismatch_counterexample :
    ((NewBLSVerifier (fun _ => some 1)).VerifyAggregate
        [⟨[], []⟩] [] ⟨0⟩).2.1 = some BLSError.emptyKeySet ∧
      BLSError.emptyKeySet ≠ BLSError.lengthMismatch := by
  exact ⟨rfl, by decide⟩

/-- C8 (amended): `VerifyAggregateCommon` and `VerifyAggregate` reject an
empty public-key list with verdict `false` and the `EmptyKeySet` error, and
`VerifyAggregate` called with a nonempty key list and `|messages| ≠ |keys|`
rejects with verdict `false` and the `LengthMismatch` error (with an empty
key list the `EmptyKeySet` rejection takes priority even when the lengths
differ); in all rejection cases the verifier — hence its pairing engine —
is returned unchanged and the result does not depend on the hasher, so no
hashing or pairing work is done. -/
theorem verify_aggregate_early_reject (h : Hasher) (e : Engine) (m : Message)
    (ms : List Message) (pks : List PublicKey) (sig : AggregatedSignature) :
    (pks = [] →
      (BLSVerifier.mk h e).VerifyAggregateCommon m pks sig =
          (false, some BLSError.emptyKeySet, BLSVerifier.mk h e) ∧
        (BLSVerifier.mk h e).VerifyAggregate ms pks sig =
          (false, some BLSError.emptyKeySet, BLSVerifier.mk h e)) ∧
      (pks ≠ [] → ms.length ≠ pks.length →
        (BLSVerifier.mk h e).VerifyAggregate ms pks sig =
          (false, some BLSError.lengthMismatch, BLSVerifier.mk h e)) := by
  constructor
  · rintro rfl
    exact ⟨rfl, rfl⟩
  · intro hne hlen
    have h0 : pks.length ≠ 0 := fun hc => hne (List.length_eq_zero.mp hc)
    simp [BLSVerifier.VerifyAggregate, h0, hlen]

/-- C8 witness: concrete rejections with the empty key list and with a
length mismatch. -/
theorem verify_aggregate_early_reject_witness :
    ((BLSVerifier.mk (fun _ => some 1) NewEngine).VerifyAggregateCommon
        ⟨[], []⟩ [] ⟨0⟩ =
        (false, some BLSError.emptyKeySet,
          BLSVerifier.mk (fun _ => some 1) NewEngine)) ∧
      ((BLSVerifier.mk (fun _ => some 1) NewEngine).VerifyAggregate
        [] [⟨1⟩] ⟨0⟩ =
        (false, some BLSError.lengthMismatch,
          BLSVerifier.mk (fun _ => some 1) NewEngine)) :=
  ⟨((verify_aggregate_early_reject (fun _ => some 1) NewEngine
      ⟨[], []⟩ [] [] ⟨0⟩).1 rfl).1,
    (verify_aggregate_early_reject (fun _ => some 1) NewEngine
      ⟨[], []⟩ [] [⟨1⟩] ⟨0⟩).2 (by simp) (by simp)⟩

set_option maxRecDepth 100000 in
/-- C2 counterexample: the 160-byte input whose G2 prefix encodes the
identity and whose trailing 32 bytes are all `0xFF` is accepted, and the
stored secret is the raw trailing bytes, whose value `2^256 - 1` is not
reduced modulo `r`. -/
theorem keypair_from_bytes_no_reduction_counterexample :
    NewKeyPairFromBytes (natToBeBytes 128 0 ++ List.replicate 32 255) =
        Except.ok ⟨List.replicate 32 255, ⟨0⟩⟩ ∧
      beBytesToNat (List.replicate 32 255) % Order ≠
        beBytesToNat (List.replicate 32 255) := by
  constructor
  · rfl
  · decide

/-- C2 (amended): for every 160-byte input whose G2 prefix decodes, the
secret stored in the returned KeyPair is the trailing 32 bytes copied
verbatim — no reduction modulo `r` is applied. -/
theorem keypair_from_bytes_raw_secret (l : List ℕ) (p : PointG2)
    (hlen : l.length = 160) (hok : g2FromBytes (l.take 128) = Except.ok p) :
    NewKeyPairFromBytes l = Except.ok ⟨l.drop 128, ⟨p⟩⟩ := by
  simp [NewKeyPairFromBytes, hlen, hok]

set_option maxRecDepth 100000 in
/-- C2 witness: a concrete accepted input whose trailing bytes are stored
verbatim. -/
theorem keypair_from_bytes_raw_secret_witness :
    NewKeyPairFromBytes (natToBeBytes 128 0 ++ natToBeBytes 32 7) =
      Except.ok ⟨natToBeBytes 32 7, ⟨0⟩⟩ := by
  have h := keypair_from_bytes_raw_secret
    (natToBeBytes 128 0 ++ natToBeBytes 32 7) 0 (by decide) (by rfl)
  simpa using h

/-- C4 counterexample: the spec's uniform-integer-below-`r` primitive can
return `0` (e.g. for an all-zero entropy stream), and key generation then
stores the zero scalar and the identity public key, contradicting the
claimed range `[1, r)`. -/
theorem keygen_zero_scalar_counterexample :
    0 < Order ∧ (NewKeyPair 0).secret = List.replicate 32 0 ∧
      beBytesToNat (NewKeyPair 0).secret = 0 ∧
      (NewKeyPair 0).Public.point = 0 := by
  refine ⟨by decide, by decide, by decide, ?_⟩
  simp [NewKeyPair, g2MulScalar]

/-- C4 (amended): for every value `s` drawn by the
uniform-integer-below-`r` primitive (so `s ∈ [0, r)`, zero included), key
generation stores `s` zero-padded big-endian in exactly 32 bytes and
derives the public key `P = s · G2_generator`. -/
theorem keygen_range_and_encoding (s : ℕ) (hs : s < Order) :
    (NewKeyPair s).secret.length = 32 ∧
      beBytesToNat (NewKeyPair s).secret = s ∧
      (NewKeyPair s).Public.point = g2MulScalar g2One s := by
  refine ⟨natToBeBytes_length 32 s, ?_, rfl⟩
  rw [NewKeyPair, beBytesToNat_natToBeBytes]
  exact Nat.mod_eq_of_lt (lt_trans hs (by decide))

/-- C4 witness: key generation at the drawn scalar `5`. -/
theorem keygen_range_and_encoding_witness :
    (NewKeyPair 5).secret.length = 32 ∧
      beBytesToNat (NewKeyPair 5).secret = 5 ∧
      (NewKeyPair 5).Public.point = g2MulScalar g2One 5 :=
  keygen_range_and_encoding 5 (by decide)

theorem g2FromBytes_g2ToBytes (p : PointG2) :
    g2FromBytes (g2ToBytes p) = Except.ok p := by
  have hlen : (g2ToBytes p).length = 128 := natToBeBytes_length _ _
  have hval : beBytesToNat (g2ToBytes p) = p.val := by
    rw [g2ToBytes, beBytesToNat_natToBeBytes]
    exact Nat.mod_eq_of_lt (lt_trans p.val_lt (by decide))
  rw [g2FromBytes, if_pos ⟨hlen, by rw [hval]; exact p.val_lt⟩, hval,
    ZMod.natCast_zmod_val]

theorem g1FromBytes_g1ToBytes (p : PointG1) :
    g1FromBytes (g1ToBytes p) = Except.ok p := by
  have hlen : (g1ToBytes p).length = 64 := natToBeBytes_length _ _
  have hval : beBytesToNat (g1ToBytes p) = p.val := by
    rw [g1ToBytes, beBytesToNat_natToBeBytes]
    exact Nat.mod_eq_of_lt (lt_trans p.val_lt (by decide))
  rw [g1FromBytes, if_pos ⟨hlen, by rw [hval]; exact p.val_lt⟩, hval,
    ZMod.natCast_zmod_val]

/-- C6: encoding then decoding is the identity: `NewKeyPairFromBytes`
applied to `KeyPair.ToBytes` succeeds and returns a KeyPair with the same
secret bytes and the same public point, and `PublicKeyFromBytes` and
`SignatureKeyFromBytes` invert `ToBytes` on public keys and signatures. -/
theorem roundtrip_encoding (kp : KeyPair) (pk : PublicKey) (sig : Signature)
    (hlen : kp.secret.length = 32) :
    NewKeyPairFromBytes kp.ToBytes = Except.ok kp ∧
      PublicKeyFromBytes pk.ToBytes = Except.ok pk ∧
      SignatureKeyFromBytes sig.ToBytes = Except.ok sig := by
  refine ⟨?_, ?_, ?_⟩
  · have hpub : (kp.Public.ToBytes).length = 128 := natToBeBytes_length _ _
    have hl : kp.ToBytes.length = 160 := by
      simp [KeyPair.ToBytes, hpub, hlen]
    have htake : kp.ToBytes.take 128 = kp.Public.ToBytes := by
      rw [KeyPair.ToBytes]
      exact List.take_left' hpub
    have hdrop : kp.ToBytes.drop 128 = kp.secret := by
      rw [KeyPair.ToBytes]
      exact List.drop_left' hpub
    rw [NewKeyPairFromBytes, if_neg (by rw [hl]; exact fun hc => hc rfl),
      htake]
    have hg2 : g2FromBytes kp.Public.ToBytes = Except.ok kp.Public.point :=
      g2FromBytes_g2ToBytes kp.Public.point
    rw [hg2, hdrop]
  · rw [PublicKeyFromBytes, PublicKey.ToBytes,
      g2FromBytes_g2ToBytes pk.point]
  · rw [SignatureKeyFromBytes, Signature.ToBytes,
      g1FromBytes_g1ToBytes sig.point]

set_option maxRecDepth 100000 in
/-- C6 witness: round trip at a concrete KeyPair, public key and
signature. -/
theorem roundtrip_encoding_witness :
    NewKeyPairFromBytes (KeyPair.ToBytes ⟨List.replicate 32 7, ⟨3⟩⟩) =
        Except.ok ⟨List.replicate 32 7, ⟨3⟩⟩ ∧
      PublicKeyFromBytes (PublicKey.ToBytes ⟨2⟩) = Except.ok ⟨2⟩ ∧
      SignatureKeyFromBytes (Signature.ToBytes ⟨4⟩) = Except.ok ⟨4⟩ :=
  roundtrip_encoding ⟨List.replicate 32 7, ⟨3⟩⟩ ⟨2⟩ ⟨4⟩ (by decide)

/-- C1: for every message whose hash succeeds and every KeyPair produced by
key generation (drawn scalar `s < r`), verifying the signature produced by
`Sign` on a fresh verifier succeeds: the verdict is `true` and the error is
`nil`. -/
theorem sign_then_verify (h : Hasher) (m : Message) (s : ℕ) (hs : s < Order)
    (hm : PointG1) (hhash : h m = some hm) :
    ∃ sig : Signature,
      (NewBLSSigner h (NewKeyPair s)).Sign m = some sig ∧
        ((NewBLSVerifier h).Verify m sig (NewKeyPair s).Public).1 = true ∧
        ((NewBLSVerifier h).Verify m sig (NewKeyPair s).Public).2.1 = none := by
  have hsv : beBytesToNat (NewKeyPair s).secret = s := by
    rw [NewKeyPair, beBytesToNat_natToBeBytes]
    exact Nat.mod_eq_of_lt (lt_trans hs (by decide))
  refine ⟨⟨g1MulScalar hm (beBytesToNat (NewKeyPair s).secret)⟩, ?_, ?_, ?_⟩
  · simp [BLSSigner.Sign, NewBLSSigner, hhash]
  · have hsv' : beBytesToNat (natToBeBytes 32 s) = s := by
      rw [beBytesToNat_natToBeBytes]
      exact Nat.mod_eq_of_lt (lt_trans hs (by decide))
    simp only [BLSVerifier.Verify, NewBLSVerifier, NewEngine, hhash,
      Engine.AddPair, Engine.AddPairInv, Engine.Check, Engine.Result,
      gtIsOne, List.nil_append, List.singleton_append, List.map_cons,
      List.map_nil, List.sum_cons, List.sum_nil, PairingPair.contribution,
      pairing, NewKeyPair, g1MulScalar, g2MulScalar, g2One, hsv']
    rw [decide_eq_true_eq]
    simp only [Bool.false_eq_true, if_false, if_true, ite_true, ite_false]
    ring
  · simp [BLSVerifier.Verify, NewBLSVerifier, hhash]

/-- C1 witness: sign-then-verify at a concrete scalar and hasher. -/
theorem sign_then_verify_witness :
    ∃ sig : Signature,
      (NewBLSSigner (fun _ => some 7) (NewKeyPair 5)).Sign ⟨[], []⟩ =
          some sig ∧
        ((NewBLSVerifier (fun _ => some 7)).Verify ⟨[], []⟩ sig
            (NewKeyPair 5).Public).1 = true ∧
        ((NewBLSVerifier (fun _ => some 7)).Verify ⟨[], []⟩ sig
            (NewKeyPair 5).Public).2.1 = none :=
  sign_then_verify (fun _ => some 7) ⟨[], []⟩ 5 (by decide) 7 rfl

/-- C10: `Sign` depends on the secret bytes only through their big-endian
value modulo `r`: two secrets with congruent values produce the same
signature for every hasher and message. -/
theorem sign_depends_on_residue (h : Hasher) (m : Message)
    (s₁ s₂ : SecretKey) (pk₁ pk₂ : PublicKey)
    (hcong : beBytesToNat s₁ % Order = beBytesToNat s₂ % Order) :
    (NewBLSSigner h ⟨s₁, pk₁⟩).Sign m = (NewBLSSigner h ⟨s₂, pk₂⟩).Sign m := by
  cases hh : h m with
  | none => simp [BLSSigner.Sign, NewBLSSigner, hh]
  | some hm =>
      simp only [BLSSigner.Sign, NewBLSSigner, hh, g1MulScalar]
      have : ((beBytesToNat s₁ : ℕ) : ZMod Order) =
          ((beBytesToNat s₂ : ℕ) : ZMod Order) :=
        (ZMod.natCast_eq_natCast_iff' _ _ _).mpr hcong
      rw [this]

set_option maxRecDepth 100000 in
/-- C10 witness: the reduced secret `1` and the unreduced secret `r + 1`
sign identically. -/
theorem sign_depends_on_residue_witness :
    (NewBLSSigner (fun _ => some 3) ⟨natToBeBytes 32 1, ⟨1⟩⟩).Sign
        ⟨[], []⟩ =
      (NewBLSSigner (fun _ => some 3)
          ⟨natToBeBytes 32 (Order + 1), ⟨1⟩⟩).Sign ⟨[], []⟩ :=
  sign_depends_on_residue (fun _ => some 3) ⟨[], []⟩
    (natToBeBytes 32 1) (natToBeBytes 32 (Order + 1)) ⟨1⟩ ⟨1⟩ (by decide)

theorem set_append_singleton {α : Type} (l : List α) (a v : α) :
    (l ++ [a]).set l.length v = l ++ [v] := by
  rw [List.set_append_right _ _ (le_refl l.length), Nat.sub_self]
  rfl

theorem getD_append_lt {α : Type} (l : List α) (a : α) (j : ℕ) (d : α)
    (hj : j < l.length) : (l ++ [a]).getD j d = l.getD j d := by
  simp only [List.getD_eq_getElem?_getD]
  rw [List.getElem?_append_left hj]

theorem getD_append_length {α : Type} (l : List α) (a : α) (d : α) :
    (l ++ [a]).getD l.length d = a := by
  simp only [List.getD_eq_getElem?_getD]
  rw [List.getElem?_concat_length]
  rfl

theorem aggregateHeap_foldl (σ : List (ZMod Order)) (rest : List ℕ)
    (hv : ∀ p ∈ rest, p < σ.length) (acc : ZMod Order) :
    rest.foldl
        (fun s pi => s.set σ.length (s.getD σ.length 0 + s.getD pi 0))
        (σ ++ [acc]) =
      σ ++ [rest.foldl (fun a pi => a + σ.getD pi 0) acc] := by
  induction rest generalizing acc with
  | nil => rfl
  | cons p ps ih =>
      simp only [List.foldl_cons]
      rw [getD_append_length, getD_append_lt _ _ _ _ (hv p (List.mem_cons_self _ _)),
        set_append_singleton]
      exact ih (fun q hq => hv q (List.mem_cons_of_mem p hq)) _

/-- C9: the heap model of `AggregatePublicKeys` / `AggregateSignatures`
(identical Go code over G2 resp. G1) never mutates its inputs: for every
non-empty pointer list into the store, every pre-existing cell — in
particular every input point, including the first, which is copied into a
fresh cell before folding — holds the same value after the call, and the
returned aggregate lives in a newly allocated cell distinct from every
input pointer; the fresh cell holds exactly the functional aggregate of the
input values. -/
theorem aggregate_no_mutation (σ : List (ZMod Order)) (ptrs : List ℕ)
    (bls : BLSVerifier) (hne : ptrs ≠ [])
    (hv : ∀ p ∈ ptrs, p < σ.length) :
    (AggregateHeap σ ptrs).2 = σ.length ∧
      (∀ p ∈ ptrs, (AggregateHeap σ ptrs).2 ≠ p) ∧
      (∀ j, j < σ.length →
        ((AggregateHeap σ ptrs).1).getD j 0 = σ.getD j 0) ∧
      ((AggregateHeap σ ptrs).1).getD (AggregateHeap σ ptrs).2 0 =
        (bls.AggregatePublicKeys
          (ptrs.map (fun p => ⟨σ.getD p 0⟩))).point := by
  match ptrs, hne with
  | p0 :: rest, _ =>
      have hv0 : p0 < σ.length := hv p0 (List.mem_cons_self _ _)
      have hvr : ∀ p ∈ rest, p < σ.length :=
        fun q hq => hv q (List.mem_cons_of_mem p0 hq)
      have hstore : (AggregateHeap σ (p0 :: rest)).1 =
          σ ++ [rest.foldl (fun a pi => a + σ.getD pi 0) (σ.getD p0 0)] := by
        simp only [AggregateHeap]
        exact aggregateHeap_foldl σ rest hvr _
      have hidx : (AggregateHeap σ (p0 :: rest)).2 = σ.length := rfl
      refine ⟨hidx, ?_, ?_, ?_⟩
      · intro p hp
        rw [hidx]
        exact Nat.ne_of_gt (hv p hp)
      · intro j hj
        rw [hstore]
        exact getD_append_lt _ _ _ _ hj
      · rw [hstore, hidx, getD_append_length]
        simp only [BLSVerifier.AggregatePublicKeys, List.map_cons,
          List.foldl_map]

/-- C9 witness: a concrete store with a repeated (aliased) input pointer is
unchanged below the fresh cell, and the fresh cell holds the aggregate. -/
theorem aggregate_no_mutation_witness :
    (AggregateHeap [2, 3] [0, 1, 0]).2 = 2 ∧
      (∀ p ∈ [0, 1, 0], (AggregateHeap [2, 3] [0, 1, 0]).2 ≠ p) ∧
      (∀ j, j < ([2, 3] : List (ZMod Order)).length →
        ((AggregateHeap [2, 3] [0, 1, 0]).1).getD j 0 =
          ([2, 3] : List (ZMod Order)).getD j 0) ∧
      ((AggregateHeap [2, 3] [0, 1, 0]).1).getD
          (AggregateHeap [2, 3] [0, 1, 0]).2 0 =
        ((NewBLSVerifier (fun _ => none)).AggregatePublicKeys
          ([0, 1, 0].map (fun p => ⟨([2, 3] : List (ZMod Order)).getD p 0⟩))).point :=
  aggregate_no_mutation [2, 3] [0, 1, 0] (NewBLSVerifier (fun _ => none))
    (by decide) (by decide)

/-- C3 counterexample: two `Verify` calls on one verifier are not
independent: after a first call that rejects (leaving a non-identity
residual in the shared engine), a valid signature that a freshly
constructed verifier accepts is rejected by the same verifier. -/
theorem verify_not_independent_counterexample :
    (((NewBLSVerifier (fun _ => some 1)).Verify ⟨[], []⟩ ⟨0⟩
          ⟨1⟩).2.2.Verify ⟨[], []⟩ ⟨1⟩ ⟨1⟩).1 = false ∧
      ((NewBLSVerifier (fun _ => some 1)).Verify ⟨[], []⟩ ⟨1⟩ ⟨1⟩).1 =
        true := by
  constructor <;> decide

theorem verifyAggregate_unfold (bls : BLSVerifier) (ms : List Message)
    (pks : List PublicKey) (asig : AggregatedSignature)
    (h0 : pks.length ≠ 0) (hlen : ms.length = pks.length) :
    bls.VerifyAggregate ms pks asig =
      match VerifyAggregateLoop bls.hasher
          (bls.e.AddPairInv asig.point g2One) ms pks with
      | (some err, e1) => (false, some err, ⟨bls.hasher, e1⟩)
      | (none, e1) => (e1.Check, none, ⟨bls.hasher, e1⟩) := by
  rw [BLSVerifier.VerifyAggregate, if_neg h0, if_neg (fun hc => hc hlen)]

theorem verifyAggregateLoop_shift (h : Hasher) (p₀ : List PairingPair)
    (l : List PairingPair) (ms : List Message) (pks : List PublicKey) :
    (VerifyAggregateLoop h ⟨p₀ ++ l⟩ ms pks).1 =
        (VerifyAggregateLoop h ⟨l⟩ ms pks).1 ∧
      (VerifyAggregateLoop h ⟨p₀ ++ l⟩ ms pks).2.pairs =
        p₀ ++ (VerifyAggregateLoop h ⟨l⟩ ms pks).2.pairs := by
  induction ms generalizing l pks with
  | nil => exact ⟨rfl, rfl⟩
  | cons m ms ih =>
      cases pks with
      | nil => exact ⟨rfl, rfl⟩
      | cons pk pks =>
          cases hh : h m with
          | none => simp [VerifyAggregateLoop, hh]
          | some hm =>
              simp only [VerifyAggregateLoop, hh, Engine.AddPair,
                List.append_assoc]
              exact ih (l ++ [⟨hm, pk.point, false⟩]) pks

/-- C3 (amended): verification calls on a `BLSVerifier` accumulate into the
verifier's single shared engine, which is never reset; a call's verdict and
error equal those of the same call on a freshly constructed verifier
whenever the residual already accumulated in the engine is the GT identity
(as after a sequence of calls that all returned `true`) — but not in
general, since the pending pairs of previous calls stay in the engine. -/
theorem verify_fresh_of_residual_identity (h : Hasher) (e : Engine)
    (he : e.Result = 0) (m : Message) (sig : Signature) (pk : PublicKey)
    (ms : List Message) (pks : List PublicKey)
    (asig : AggregatedSignature) :
    (((BLSVerifier.mk h e).Verify m sig pk).1 =
          ((NewBLSVerifier h).Verify m sig pk).1 ∧
        ((BLSVerifier.mk h e).Verify m sig pk).2.1 =
          ((NewBLSVerifier h).Verify m sig pk).2.1) ∧
      (((BLSVerifier.mk h e).VerifyAggregateCommon m pks asig).1 =
          ((NewBLSVerifier h).VerifyAggregateCommon m pks asig).1 ∧
        ((BLSVerifier.mk h e).VerifyAggregateCommon m pks asig).2.1 =
          ((NewBLSVerifier h).VerifyAggregateCommon m pks asig).2.1) ∧
      (((BLSVerifier.mk h e).VerifyAggregate ms pks asig).1 =
          ((NewBLSVerifier h).VerifyAggregate ms pks asig).1 ∧
        ((BLSVerifier.mk h e).VerifyAggregate ms pks asig).2.1 =
          ((NewBLSVerifier h).VerifyAggregate ms pks asig).2.1) := by
  refine ⟨?_, ?_, ?_⟩
  · cases hh : h m with
    | none => simp [BLSVerifier.Verify, NewBLSVerifier, hh]
    | some hm =>
        simp only [BLSVerifier.Verify, NewBLSVerifier, hh, NewEngine,
          Engine.AddPair, Engine.AddPairInv, List.nil_append,
          List.append_assoc]
        refine ⟨?_, trivial⟩
        exact Engine.Check_append_of_result_zero e _ he
  · by_cases h0 : pks.length = 0
    · simp [BLSVerifier.VerifyAggregateCommon, NewBLSVerifier, h0]
    · cases hh : h m with
      | none =>
          simp [BLSVerifier.VerifyAggregateCommon, NewBLSVerifier, h0, hh]
      | some hm =>
          simp only [BLSVerifier.VerifyAggregateCommon, NewBLSVerifier,
            h0, if_false, hh, NewEngine, Engine.AddPair, Engine.AddPairInv,
            List.nil_append, List.append_assoc]
          refine ⟨?_, trivial⟩
          exact Engine.Check_append_of_result_zero e _ he
  · by_cases h0 : pks.length = 0
    · simp [BLSVerifier.VerifyAggregate, NewBLSVerifier, h0]
    · by_cases hlen : ms.length = pks.length
      · rw [verifyAggregate_unfold (BLSVerifier.mk h e) ms pks asig h0 hlen,
          verifyAggregate_unfold (NewBLSVerifier h) ms pks asig h0 hlen]
        have hfe : (NewBLSVerifier h).e.AddPairInv asig.point g2One =
            (⟨[⟨asig.point, g2One, true⟩]⟩ : Engine) := by
          simp [NewBLSVerifier, NewEngine, Engine.AddPairInv]
        have hle : (BLSVerifier.mk h e).e.AddPairInv asig.point g2One =
            (⟨e.pairs ++ [⟨asig.point, g2One, true⟩]⟩ : Engine) := rfl
        rw [hfe, hle]
        have hs := verifyAggregateLoop_shift h e.pairs
          [⟨asig.point, g2One, true⟩] ms pks
        rcases hfresh : VerifyAggregateLoop h ⟨[⟨asig.point, g2One, true⟩]⟩
            ms pks with ⟨err, efresh⟩
        rcases hshift : VerifyAggregateLoop h ⟨e.pairs ++
            [⟨asig.point, g2One, true⟩]⟩ ms pks with ⟨err', eshift⟩
        rw [hfresh, hshift] at hs
        obtain ⟨herr, hpairs⟩ := hs
        simp only at herr hpairs
        subst herr
        simp only [NewBLSVerifier]
        rw [hfresh, hshift]
        cases err' with
        | some err => exact ⟨rfl, rfl⟩
        | none =>
            have hes : eshift = ⟨e.pairs ++ efresh.pairs⟩ := by
              cases eshift
              simpa using hpairs
            subst hes
            exact ⟨Engine.Check_append_of_result_zero e _ he, rfl⟩
      · simp [BLSVerifier.VerifyAggregate, NewBLSVerifier, h0, hlen]

/-- C3 witness: over an engine whose pending pairs cancel to the identity,
each verification mode gives the same verdict and error as on a fresh
verifier. -/
theorem verify_fresh_of_residual_identity_witness :
    (((BLSVerifier.mk (fun _ => some 1)
            ⟨[⟨1, 1, false⟩, ⟨1, 1, true⟩]⟩).Verify ⟨[], []⟩ ⟨1⟩ ⟨1⟩).1 =
          ((NewBLSVerifier (fun _ => some 1)).Verify ⟨[], []⟩ ⟨1⟩ ⟨1⟩).1 ∧
        ((BLSVerifier.mk (fun _ => some 1)
            ⟨[⟨1, 1, false⟩, ⟨1, 1, true⟩]⟩).Verify ⟨[], []⟩ ⟨1⟩ ⟨1⟩).2.1 =
          ((NewBLSVerifier (fun _ => some 1)).Verify ⟨[], []⟩ ⟨1⟩ ⟨1⟩).2.1) ∧
      (((BLSVerifier.mk (fun _ => some 1)
            ⟨[⟨1, 1, false⟩, ⟨1, 1, true⟩]⟩).VerifyAggregateCommon ⟨[], []⟩
              [⟨1⟩] ⟨1⟩).1 =
          ((NewBLSVerifier (fun _ => some 1)).VerifyAggregateCommon ⟨[], []⟩
              [⟨1⟩] ⟨1⟩).1 ∧
        ((BLSVerifier.mk (fun _ => some 1)
            ⟨[⟨1, 1, false⟩, ⟨1, 1, true⟩]⟩).VerifyAggregateCommon ⟨[], []⟩
              [⟨1⟩] ⟨1⟩).2.1 =
          ((NewBLSVerifier (fun _ => some 1)).VerifyAggregateCommon ⟨[], []⟩
              [⟨1⟩] ⟨1⟩).2.1) ∧
      (((BLSVerifier.mk (fun _ => some 1)
            ⟨[⟨1, 1, false⟩, ⟨1, 1, true⟩]⟩).VerifyAggregate [⟨[], []⟩]
              [⟨1⟩] ⟨1⟩).1 =
          ((NewBLSVerifier (fun _ => some 1)).VerifyAggregate [⟨[], []⟩]
              [⟨1⟩] ⟨1⟩).1 ∧
        ((BLSVerifier.mk (fun _ => some 1)
            ⟨[⟨1, 1, false⟩, ⟨1, 1, true⟩]⟩).VerifyAggregate [⟨[], []⟩]
              [⟨1⟩] ⟨1⟩).2.1 =
          ((NewBLSVerifier (fun _ => some 1)).VerifyAggregate [⟨[], []⟩]
              [⟨1⟩] ⟨1⟩).2.1) :=
  verify_fresh_of_residual_identity (fun _ => some 1)
    ⟨[⟨1, 1, false⟩, ⟨1, 1, true⟩]⟩ (by decide) ⟨[], []⟩ ⟨1⟩ ⟨1⟩
    [⟨[], []⟩] [⟨1⟩] ⟨1⟩

end BLS
